import Mathlib

/-!
CYW43907 GPIO interrupt example, `main.c`.

A shallow embedding of `main` and `gpio_interrupt_handler` of `main.c`.

The program is a foreground thread (`main`) that can be preempted by the
button interrupt. It is embedded as a small-step machine: `step` executes
one statement of `main` (one program point of `Pc`), the function
`gpio_interrupt_handler` is the callback, and a run is a fold over a
schedule of `Event`s that says, at every statement boundary of `main`,
whether `main` advances or the handler is dispatched. The read of the
volatile `gpio_intr_flag` at line 112 and the write at line 114 are two
separate program points, so the handler may run between them. Every statement
accesses `gpio_intr_flag` at most once and the handler touches nothing else, so
a preemption inside a statement has the effect of one just before or just
after it. A schedule may dispatch the handler at any boundary, also before
interrupts are enabled at line 103: the theorems hold for all schedules, and
the concrete schedules below deliver edges only once the loop is running.

Calls into the HAL are recorded, in program order, in `State.trace`.
-/

namespace GpioInterrupt

/-! ## Constants and types -/

/-- Line 21: `#define DELAY_SHORT_MS (250)`. -/
def DELAY_SHORT_MS : Nat := 250

/-- Line 22: `#define DELAY_LONG_MS (500)`. -/
def DELAY_LONG_MS : Nat := 500

/-- Line 23: `#define GPIO_INTERRUPT_PRIORITY (3u)`. -/
def GPIO_INTERRUPT_PRIORITY : Nat := 3

/-- The result type `cy_rslt_t` of the HAL (an unsigned 32-bit code). -/
abbrev cy_rslt_t := Nat

/-- Modelled from the spec: the constant `CY_RSLT_SUCCESS` of the HAL headers,
which are not part of the source file; it is the one result value that counts
as success, every other value is an initialisation failure. -/
def CY_RSLT_SUCCESS : cy_rslt_t := 0

/-- The event descriptor type `cyhal_gpio_event_t` (a bit mask). -/
abbrev cyhal_gpio_event_t := Nat

/-- The two board pins the program names. -/
inductive Pin where
  | CYBSP_LED2
  | CYBSP_SW1
  deriving DecidableEq, Repr

/-- The symbolic pin levels the program names (board support macros). -/
inductive PinValue where
  | CYBSP_LED_STATE_ON
  | CYBSP_LED_STATE_OFF
  | CYBSP_BTN_OFF
  deriving DecidableEq, Repr

/-- The pin directions passed to `cyhal_gpio_init`. -/
inductive Direction where
  | CYHAL_GPIO_DIR_INPUT
  | CYHAL_GPIO_DIR_OUTPUT
  deriving DecidableEq, Repr

/-- The drive modes passed to `cyhal_gpio_init`. -/
inductive DriveMode where
  | CYHAL_GPIO_DRIVE_STRONG
  | CYHAL_GPIO_DRIVE_PULLUP
  deriving DecidableEq, Repr

/-- The calls `main` makes into the platform, as they appear in the trace. -/
inductive Action where
  | cybsp_init
  | cy_retarget_io_init
  | cyhal_gpio_init (pin : Pin) (dir : Direction) (drive : DriveMode) (init_val : PinValue)
  | cyhal_gpio_register_callback (pin : Pin)
  | cyhal_gpio_enable_event (pin : Pin) (priority : Nat) (enable : Bool)
  | enable_irq
  | printf_clear_screen
  | printf_banner
  | cyhal_gpio_write (pin : Pin) (value : PinValue)
  | cyhal_system_delay_ms (ms : Nat)
  deriving DecidableEq, Repr

/-- The results the four checked initialisation calls return on a given run. -/
structure Hal where
  cybsp_init : cy_rslt_t
  cy_retarget_io_init : cy_rslt_t
  cyhal_gpio_init_led : cy_rslt_t
  cyhal_gpio_init_btn : cy_rslt_t
  deriving DecidableEq, Repr

/-- The program points of `main`: one per statement, `halted` after a failed
assertion. -/
inductive Pc where
  | bsp_init          -- lines 58-64
  | retarget_init     -- lines 67-74
  | led_init          -- lines 77-84
  | btn_init          -- lines 87-94
  | register_callback -- line 97
  | enable_event      -- line 99
  | enable_irq        -- line 103
  | print_clear       -- line 106
  | print_banner      -- line 107
  | test_flag         -- line 112, the read of gpio_intr_flag
  | clear_flag        -- line 114, the write of false
  | update_delay      -- line 117
  | led_on            -- line 120
  | delay_on          -- line 121
  | led_off           -- line 122
  | delay_off         -- line 123
  | halted
  deriving DecidableEq, Repr

/-- The program state: the program point of `main`, the global
`gpio_intr_flag`, the locals `result` and `delay_led_blink` of `main`, and the
platform calls made so far (oldest first). -/
structure State where
  pc : Pc
  gpio_intr_flag : Bool
  delay_led_blink : Nat
  result : cy_rslt_t
  trace : List Action
  deriving DecidableEq, Repr

/-- Modelled from the spec: the macro `CY_ASSERT` of `cy_utils.h`, which is not
part of the source file. The spec says a failed assertion halts the processor
immediately; a true assertion continues at the next statement. -/
def CY_ASSERT (cond : Bool) (next : Pc) : Pc :=
  if cond then next else Pc.halted

/-! ## The program -/

/-- Lines 33 and 49: the state in which `main` starts. The local `result` is
not initialised at line 48; it is written before it is first read, so the value
given here is never observed. -/
def init : State :=
  { pc := Pc.bsp_init
    gpio_intr_flag := false
    delay_led_blink := DELAY_LONG_MS
    result := 0
    trace := [] }

/-- Lines 139-144: the callback. Both parameters are unused. -/
def gpio_interrupt_handler (handler_arg : Nat) (event : cyhal_gpio_event_t)
    (s : State) : State :=
  let _ := handler_arg
  let _ := event
  { s with gpio_intr_flag := true }

/-- Line 117: the new value of `delay_led_blink`. -/
def toggle_delay (delay_led_blink : Nat) : Nat :=
  if DELAY_LONG_MS = delay_led_blink then DELAY_SHORT_MS else DELAY_LONG_MS

/-- The statement after a checked initialisation call (lines 61-64 and the
like): a failed result runs `CY_ASSERT(0)`. -/
def check_result (result : cy_rslt_t) (next : Pc) : Pc :=
  if result ≠ CY_RSLT_SUCCESS then CY_ASSERT false next else next

/-- One statement of `main` (lines 58-125). -/
def step (hal : Hal) (s : State) : State :=
  match s.pc with
  | Pc.bsp_init =>
      { s with result := hal.cybsp_init
               trace := s.trace ++ [Action.cybsp_init]
               pc := check_result hal.cybsp_init Pc.retarget_init }
  | Pc.retarget_init =>
      { s with result := hal.cy_retarget_io_init
               trace := s.trace ++ [Action.cy_retarget_io_init]
               pc := check_result hal.cy_retarget_io_init Pc.led_init }
  | Pc.led_init =>
      { s with result := hal.cyhal_gpio_init_led
               trace := s.trace ++ [Action.cyhal_gpio_init Pin.CYBSP_LED2
                 Direction.CYHAL_GPIO_DIR_OUTPUT DriveMode.CYHAL_GPIO_DRIVE_STRONG
                 PinValue.CYBSP_LED_STATE_OFF]
               pc := check_result hal.cyhal_gpio_init_led Pc.btn_init }
  | Pc.btn_init =>
      { s with result := hal.cyhal_gpio_init_btn
               trace := s.trace ++ [Action.cyhal_gpio_init Pin.CYBSP_SW1
                 Direction.CYHAL_GPIO_DIR_INPUT DriveMode.CYHAL_GPIO_DRIVE_PULLUP
                 PinValue.CYBSP_BTN_OFF]
               pc := check_result hal.cyhal_gpio_init_btn Pc.register_callback }
  | Pc.register_callback =>
      { s with trace := s.trace ++ [Action.cyhal_gpio_register_callback Pin.CYBSP_SW1]
               pc := Pc.enable_event }
  | Pc.enable_event =>
      { s with trace := s.trace ++ [Action.cyhal_gpio_enable_event Pin.CYBSP_SW1
                 GPIO_INTERRUPT_PRIORITY true]
               pc := Pc.enable_irq }
  | Pc.enable_irq =>
      { s with trace := s.trace ++ [Action.enable_irq], pc := Pc.print_clear }
  | Pc.print_clear =>
      { s with trace := s.trace ++ [Action.printf_clear_screen], pc := Pc.print_banner }
  | Pc.print_banner =>
      { s with trace := s.trace ++ [Action.printf_banner], pc := Pc.test_flag }
  | Pc.test_flag =>
      if true = s.gpio_intr_flag then { s with pc := Pc.clear_flag }
      else { s with pc := Pc.led_on }
  | Pc.clear_flag =>
      { s with gpio_intr_flag := false, pc := Pc.update_delay }
  | Pc.update_delay =>
      { s with delay_led_blink := toggle_delay s.delay_led_blink, pc := Pc.led_on }
  | Pc.led_on =>
      { s with trace := s.trace ++ [Action.cyhal_gpio_write Pin.CYBSP_LED2
                 PinValue.CYBSP_LED_STATE_ON]
               pc := Pc.delay_on }
  | Pc.delay_on =>
      { s with trace := s.trace ++ [Action.cyhal_system_delay_ms s.delay_led_blink]
               pc := Pc.led_off }
  | Pc.led_off =>
      { s with trace := s.trace ++ [Action.cyhal_gpio_write Pin.CYBSP_LED2
                 PinValue.CYBSP_LED_STATE_OFF]
               pc := Pc.delay_off }
  | Pc.delay_off =>
      { s with trace := s.trace ++ [Action.cyhal_system_delay_ms s.delay_led_blink]
               pc := Pc.test_flag }
  | Pc.halted => s

/-- What can happen at a statement boundary of `main`: `main` executes its next
statement, or a falling edge of the button dispatches the callback. -/
inductive Event where
  | main
  | irq (event : cyhal_gpio_event_t)
  deriving DecidableEq, Repr

/-- Lines 51-55: the callback argument registered in `cb_data` is `NULL`. -/
def callback_arg : Nat := 0

/-- One event of a schedule. -/
def exec (hal : Hal) (s : State) : Event → State
  | Event.main => step hal s
  | Event.irq event => gpio_interrupt_handler callback_arg event s

/-- The state after a schedule of events. -/
def run (hal : Hal) (s : State) (sched : List Event) : State :=
  sched.foldl (exec hal) s

/-- A platform on which every initialisation call succeeds. -/
def hal_ok : Hal :=
  { cybsp_init := CY_RSLT_SUCCESS
    cy_retarget_io_init := CY_RSLT_SUCCESS
    cyhal_gpio_init_led := CY_RSLT_SUCCESS
    cyhal_gpio_init_btn := CY_RSLT_SUCCESS }

/-- The number of statements of `main` a schedule executes. -/
def mains : List Event → Nat
  | [] => 0
  | Event.main :: es => mains es + 1
  | Event.irq _ :: es => mains es

/-- The number of button edges (callback invocations) in a schedule. -/
def edges : List Event → Nat
  | [] => 0
  | Event.main :: es => edges es
  | Event.irq _ :: es => edges es + 1

/-- The four platform calls of one blink with interval `d` (lines 120-123). -/
def blink (d : Nat) : List Action :=
  [ Action.cyhal_gpio_write Pin.CYBSP_LED2 PinValue.CYBSP_LED_STATE_ON
  , Action.cyhal_system_delay_ms d
  , Action.cyhal_gpio_write Pin.CYBSP_LED2 PinValue.CYBSP_LED_STATE_OFF
  , Action.cyhal_system_delay_ms d ]

/-- The platform calls of a successful setup (lines 58-107). -/
def setup_trace : List Action :=
  [ Action.cybsp_init
  , Action.cy_retarget_io_init
  , Action.cyhal_gpio_init Pin.CYBSP_LED2 Direction.CYHAL_GPIO_DIR_OUTPUT
      DriveMode.CYHAL_GPIO_DRIVE_STRONG PinValue.CYBSP_LED_STATE_OFF
  , Action.cyhal_gpio_init Pin.CYBSP_SW1 Direction.CYHAL_GPIO_DIR_INPUT
      DriveMode.CYHAL_GPIO_DRIVE_PULLUP PinValue.CYBSP_BTN_OFF
  , Action.cyhal_gpio_register_callback Pin.CYBSP_SW1
  , Action.cyhal_gpio_enable_event Pin.CYBSP_SW1 GPIO_INTERRUPT_PRIORITY true
  , Action.enable_irq
  , Action.printf_clear_screen
  , Action.printf_banner ]

/-! ## Vocabulary of the claims -/

/-- The number of statements of the loop iteration that starts in `s` at
line 112 when it is not preempted: seven when the check reads true (lines 112,
114, 117, 120-123), five when it reads false. -/
def iteration_length (s : State) : Nat :=
  if s.gpio_intr_flag = true then 7 else 5

/-- The values that the reads of `gpio_intr_flag` at line 112 return along a
schedule, oldest first. -/
def observations (hal : Hal) : State → List Event → List Bool
  | _, [] => []
  | s, Event.main :: es =>
      if s.pc = Pc.test_flag then s.gpio_intr_flag :: observations hal (step hal s) es
      else observations hal (step hal s) es
  | s, Event.irq event :: es =>
      observations hal (gpio_interrupt_handler callback_arg event s) es

/-- For every read of `gpio_intr_flag` at line 112 that a schedule executes:
the value read, and the number of edges delivered since the previous read
(since the start of `main` for the first). The counter `n` is the number of
edges since the previous read at the start of the schedule. -/
def check_log (hal : Hal) : State → Nat → List Event → List (Bool × Nat)
  | _, _, [] => []
  | s, n, Event.main :: es =>
      if s.pc = Pc.test_flag then
        (s.gpio_intr_flag, n) :: check_log hal (step hal s) 0 es
      else check_log hal (step hal s) n es
  | s, n, Event.irq event :: es =>
      check_log hal (gpio_interrupt_handler callback_arg event s) (n + 1) es

/-- Every edge of the schedule is delivered while `gpio_intr_flag` is false: the
edge before it has already been cleared by a flag check. -/
def isolated (hal : Hal) : State → List Event → Bool
  | _, [] => true
  | s, Event.main :: es => isolated hal (step hal s) es
  | s, Event.irq event :: es =>
      !s.gpio_intr_flag && isolated hal (gpio_interrupt_handler callback_arg event s) es

/-- No edge of the schedule is delivered between a read of true at line 112 and
the write of false at line 114. -/
def outside_window (hal : Hal) : State → List Event → Bool
  | _, [] => true
  | s, Event.main :: es => outside_window hal (step hal s) es
  | s, Event.irq event :: es =>
      decide (s.pc ≠ Pc.clear_flag)
        && outside_window hal (gpio_interrupt_handler callback_arg event s) es

/-- The platform calls up to and including the first initialisation call that
fails (the fourth when the first three succeed). -/
def calls_until_failure (hal : Hal) : List Action :=
  if hal.cybsp_init ≠ CY_RSLT_SUCCESS then setup_trace.take 1
  else if hal.cy_retarget_io_init ≠ CY_RSLT_SUCCESS then setup_trace.take 2
  else if hal.cyhal_gpio_init_led ≠ CY_RSLT_SUCCESS then setup_trace.take 3
  else setup_trace.take 4

/-- The program points inside the `for (;;)` loop (lines 109-125). -/
def in_loop : Pc → Bool
  | Pc.test_flag => true
  | Pc.clear_flag => true
  | Pc.update_delay => true
  | Pc.led_on => true
  | Pc.delay_on => true
  | Pc.led_off => true
  | Pc.delay_off => true
  | _ => false

/-- The schedule of the counterexample to C1: a successful setup, a first check
that reads false, LED on and the first delay (twelve statements in all); two
edges; then LED off, the second delay, and the next check (lines 112-117). -/
def two_edges_one_check : List Event :=
  List.replicate 12 Event.main ++ [Event.irq 2, Event.irq 2] ++ List.replicate 5 Event.main

/-- The schedule of the counterexample to C9: a successful setup; an edge; the
read of line 112; a second edge, before the write of line 114; the rest of the
iteration (lines 114-123) and the read of the next iteration. -/
def edge_in_window : List Event :=
  List.replicate 9 Event.main ++ [Event.irq 2, Event.main, Event.irq 2]
    ++ List.replicate 7 Event.main

/-- Line 103 has been executed: the program points at which the hardware can
deliver an edge to the callback (lines 106-125). -/
def irq_enabled : Pc → Bool
  | Pc.print_clear => true
  | Pc.print_banner => true
  | Pc.test_flag => true
  | Pc.clear_flag => true
  | Pc.update_delay => true
  | Pc.led_on => true
  | Pc.delay_on => true
  | Pc.led_off => true
  | Pc.delay_off => true
  | _ => false

/-- The edge that has just been delivered in state `s` is consumed along the
schedule `post`: `post` is `p1`, then a statement of `main`, then `p2`, then
`rest`, where `p1` executes no read of line 112, the statement after `p1` is
the read of line 112 and finds the flag true (the first flag check after the
edge observes it), `p2` holds the two further statements of that check
(lines 114 and 117), which ends at line 120, and the check has toggled the
interval: 500 before and 250 after, or 250 before and 500 after. -/
def edge_consumed (hal : Hal) (s : State) (post : List Event) : Prop :=
  ∃ p1 p2 rest : List Event,
    post = p1 ++ Event.main :: p2 ++ rest
    ∧ observations hal s p1 = []
    ∧ (run hal s p1).pc = Pc.test_flag
    ∧ (run hal s p1).gpio_intr_flag = true
    ∧ mains p2 = 2
    ∧ (run hal s (p1 ++ Event.main :: p2)).pc = Pc.led_on
    ∧ (((run hal s p1).delay_led_blink = 500
          ∧ (run hal s (p1 ++ Event.main :: p2)).delay_led_blink = 250)
        ∨ ((run hal s p1).delay_led_blink = 250
          ∧ (run hal s (p1 ++ Event.main :: p2)).delay_led_blink = 500))

/-! ## Invariants used in the proofs -/

/-- The program point reached `p` statements after line 120. -/
def blink_pc : Nat → Pc
  | 0 => Pc.led_on
  | 1 => Pc.delay_on
  | 2 => Pc.led_off
  | 3 => Pc.delay_off
  | _ => Pc.test_flag

/-- No edge is pending and none is being processed. -/
def quiet (s : State) : Prop :=
  s.gpio_intr_flag = false ∧ s.pc ≠ Pc.clear_flag ∧ s.pc ≠ Pc.update_delay

/-- What is known of a run with a single edge, from the edge onwards: the edge is
pending, or has just been cleared, or has been applied. -/
def after_one_edge (s : State) : Prop :=
  (s.gpio_intr_flag = true ∧ s.delay_led_blink = DELAY_LONG_MS ∧ s.pc ≠ Pc.update_delay)
  ∨ (s.gpio_intr_flag = false ∧ s.delay_led_blink = DELAY_LONG_MS ∧ s.pc = Pc.update_delay)
  ∨ (s.gpio_intr_flag = false ∧ s.delay_led_blink = DELAY_SHORT_MS
      ∧ s.pc ≠ Pc.clear_flag ∧ s.pc ≠ Pc.update_delay)

/-- The program point of the `m`-th checked initialisation call. -/
def setup_pc : Nat → Pc
  | 0 => Pc.bsp_init
  | 1 => Pc.retarget_init
  | 2 => Pc.led_init
  | _ => Pc.btn_init

/-- Where `main` is after `m` of its statements when an initialisation call
fails: still in the checked calls, or halted right after the failing one. -/
def failing_inv (hal : Hal) (s : State) (m : Nat) : Prop :=
  if m < (calls_until_failure hal).length then
    s.pc = setup_pc m ∧ s.trace = setup_trace.take m
  else
    s.pc = Pc.halted ∧ s.trace = calls_until_failure hal

/-- The interval after `m` toggles, starting from `DELAY_LONG_MS`. -/
def interval_after (m : Nat) : Nat :=
  if m % 2 = 0 then DELAY_LONG_MS else DELAY_SHORT_MS

/-- The interval agrees with the number `m` of reads that returned true, the
toggle of a check in progress (between lines 112 and 117) not yet applied. -/
def parity_inv (s : State) (m : Nat) : Prop :=
  if s.pc = Pc.clear_flag ∨ s.pc = Pc.update_delay then
    s.delay_led_blink = interval_after (m + 1)
  else
    s.delay_led_blink = interval_after m

/-- The number of toggles still owed in `s`: one for a pending flag, one for an
update not yet executed. -/
def owed (s : State) : Nat :=
  (if s.gpio_intr_flag = true then 1 else 0) + (if s.pc = Pc.update_delay then 1 else 0)

/-- With `n` edges delivered so far, one at a time, the interval is that of `n`
toggles less the toggles still owed (the parity of a difference is that of the
sum), and line 114 is only reached with the flag set. -/
def edge_inv (s : State) (n : Nat) : Prop :=
  (s.pc = Pc.clear_flag → s.gpio_intr_flag = true)
  ∧ s.delay_led_blink = interval_after (n + owed s)

/-- With `n` edges since the last read of the flag: at line 114 the flag is set
and no edge has arrived since the read; elsewhere the flag is set exactly when
an edge has arrived since the read. -/
def window_inv (s : State) (n : Nat) : Prop :=
  if s.pc = Pc.clear_flag then s.gpio_intr_flag = true ∧ n = 0
  else (s.gpio_intr_flag = true ↔ 1 ≤ n)

/-- The number of statements from a program point after line 103 to the next
read of line 112 (from line 114: through the rest of the iteration). -/
def steps_to_test : Pc → Nat
  | Pc.print_clear => 2
  | Pc.print_banner => 1
  | Pc.clear_flag => 6
  | Pc.update_delay => 5
  | Pc.led_on => 4
  | Pc.delay_on => 3
  | Pc.led_off => 2
  | Pc.delay_off => 1
  | _ => 0

/-! ## Basic facts about runs -/

theorem run_nil (hal : Hal) (s : State) : run hal s [] = s := rfl

theorem run_cons (hal : Hal) (s : State) (e : Event) (es : List Event) :
    run hal s (e :: es) = run hal (exec hal s e) es := rfl

theorem run_append (hal : Hal) (s : State) (xs ys : List Event) :
    run hal s (xs ++ ys) = run hal (run hal s xs) ys := by
  simp [run, List.foldl_append]

theorem run_replicate_succ (hal : Hal) (s : State) (k : Nat) :
    run hal s (List.replicate (k + 1) Event.main)
      = run hal (step hal s) (List.replicate k Event.main) := by
  simp [List.replicate_succ, run_cons, exec]

theorem run_replicate_add (hal : Hal) (s : State) (a b : Nat) :
    run hal s (List.replicate (a + b) Event.main)
      = run hal (run hal s (List.replicate a Event.main)) (List.replicate b Event.main) := by
  rw [List.replicate_add, run_append]

/-- Every statement of `main` keeps `delay_led_blink` one of the two constants. -/
theorem step_delay_two_valued (hal : Hal) (s : State)
    (h : s.delay_led_blink = DELAY_LONG_MS ∨ s.delay_led_blink = DELAY_SHORT_MS) :
    (step hal s).delay_led_blink = DELAY_LONG_MS
      ∨ (step hal s).delay_led_blink = DELAY_SHORT_MS := by
  obtain ⟨pc, f, d, r, t⟩ := s
  cases pc <;> simp only [step] <;> try exact h
  · split <;> exact h
  · simp only [toggle_delay]
    split
    · right; rfl
    · left; rfl

theorem exec_delay_two_valued (hal : Hal) (s : State) (e : Event)
    (h : s.delay_led_blink = DELAY_LONG_MS ∨ s.delay_led_blink = DELAY_SHORT_MS) :
    (exec hal s e).delay_led_blink = DELAY_LONG_MS
      ∨ (exec hal s e).delay_led_blink = DELAY_SHORT_MS := by
  cases e with
  | main => exact step_delay_two_valued hal s h
  | irq ev => exact h

theorem run_delay_two_valued (hal : Hal) (sched : List Event) :
    ∀ s : State, (s.delay_led_blink = DELAY_LONG_MS ∨ s.delay_led_blink = DELAY_SHORT_MS) →
      ((run hal s sched).delay_led_blink = DELAY_LONG_MS
        ∨ (run hal s sched).delay_led_blink = DELAY_SHORT_MS) := by
  induction sched with
  | nil => intro s h; exact h
  | cons e es ih =>
      intro s h
      rw [run_cons]
      exact ih _ (exec_delay_two_valued hal s e h)

theorem toggle_delay_involutive (d : Nat) (h : d = DELAY_LONG_MS ∨ d = DELAY_SHORT_MS) :
    toggle_delay (toggle_delay d) = d := by
  rcases h with h | h <;> subst h <;> decide

/-! ## The blink phase (lines 120-123) under arbitrary preemption -/

theorem handler_eq (a : Nat) (e : cyhal_gpio_event_t) (s : State) :
    gpio_interrupt_handler a e s = { s with gpio_intr_flag := true } := rfl

/-- From a program point of the blink phase, a schedule that stays within the
iteration makes exactly the remaining calls with the interval the phase began
with, whatever handler invocations are interleaved. -/
theorem run_blink (hal : Hal) (sched : List Event) :
    ∀ (s : State) (p : Nat), s.pc = blink_pc p → p + mains sched ≤ 4 →
      (run hal s sched).pc = blink_pc (p + mains sched)
      ∧ (run hal s sched).delay_led_blink = s.delay_led_blink
      ∧ (run hal s sched).trace
          = s.trace ++ ((blink s.delay_led_blink).drop p).take (mains sched)
      ∧ (run hal s sched).gpio_intr_flag = (s.gpio_intr_flag || decide (0 < edges sched))
      ∧ (run hal s sched).result = s.result := by
  induction sched with
  | nil => intro s p hp _; simp [run_nil, mains, edges, hp]
  | cons e es ih =>
      intro s p hp hle
      cases e with
      | irq ev =>
          simp only [mains] at hle
          obtain ⟨h1, h2, h3, h4, h5⟩ :=
            ih (gpio_interrupt_handler callback_arg ev s) p hp hle
          simp only [run_cons, exec, mains, edges]
          refine ⟨h1, h2, h3, ?_, h5⟩
          rw [h4]
          simp [handler_eq]
      | main =>
          simp only [mains] at hle
          obtain ⟨pc, f, d, r, t⟩ := s
          simp only at hp
          have hp4 : p < 4 := by omega
          match p, hp4, hp, hle with
          | 0, _, hp, hle =>
              subst hp
              obtain ⟨h1, h2, h3, h4, h5⟩ := ih (step hal ⟨blink_pc 0, f, d, r, t⟩) 1 rfl
                (by omega)
              simp only [run_cons, exec, mains, edges]
              refine ⟨by rw [h1]; congr 1; omega, h2, ?_, h4, h5⟩
              rw [h3]; simp [step, blink_pc, blink]
          | 1, _, hp, hle =>
              subst hp
              obtain ⟨h1, h2, h3, h4, h5⟩ := ih (step hal ⟨blink_pc 1, f, d, r, t⟩) 2 rfl
                (by omega)
              simp only [run_cons, exec, mains, edges]
              refine ⟨by rw [h1]; congr 1; omega, h2, ?_, h4, h5⟩
              rw [h3]; simp [step, blink_pc, blink]
          | 2, _, hp, hle =>
              subst hp
              obtain ⟨h1, h2, h3, h4, h5⟩ := ih (step hal ⟨blink_pc 2, f, d, r, t⟩) 3 rfl
                (by omega)
              simp only [run_cons, exec, mains, edges]
              refine ⟨by rw [h1]; congr 1; omega, h2, ?_, h4, h5⟩
              rw [h3]; simp [step, blink_pc, blink]
          | 3, _, hp, hle =>
              subst hp
              obtain ⟨h1, h2, h3, h4, h5⟩ := ih (step hal ⟨blink_pc 3, f, d, r, t⟩) 4 rfl
                (by omega)
              simp only [run_cons, exec, mains, edges]
              refine ⟨by rw [h1]; congr 1; omega, h2, ?_, h4, h5⟩
              rw [h3]; simp [step, blink_pc, blink]

/-- A whole blink phase: from line 120, four statements of `main` with any
handler invocations in between. -/
theorem run_blink_phase (hal : Hal) (sched : List Event) (s : State)
    (hpc : s.pc = Pc.led_on) (hm : mains sched = 4) :
    (run hal s sched).pc = Pc.test_flag
    ∧ (run hal s sched).delay_led_blink = s.delay_led_blink
    ∧ (run hal s sched).trace = s.trace ++ blink s.delay_led_blink
    ∧ (run hal s sched).gpio_intr_flag = (s.gpio_intr_flag || decide (0 < edges sched))
    ∧ (run hal s sched).result = s.result := by
  obtain ⟨h1, h2, h3, h4, h5⟩ := run_blink hal sched s 0 hpc (by omega)
  rw [hm] at h1 h3
  exact ⟨h1, h2, by rw [h3]; simp [blink], h4, h5⟩

/-- A flag check that reads true, run without preemption (lines 112-117). -/
theorem run_check_true (hal : Hal) (s : State) (hpc : s.pc = Pc.test_flag)
    (hf : s.gpio_intr_flag = true) :
    run hal s [Event.main, Event.main, Event.main]
      = { s with pc := Pc.led_on, gpio_intr_flag := false,
                 delay_led_blink := toggle_delay s.delay_led_blink } := by
  obtain ⟨pc, f, d, r, t⟩ := s
  simp only at hpc hf
  subst hpc hf
  simp [run, exec, step]

/-- A flag check that reads false (line 112). -/
theorem run_check_false (hal : Hal) (s : State) (hpc : s.pc = Pc.test_flag)
    (hf : s.gpio_intr_flag = false) :
    run hal s [Event.main] = { s with pc := Pc.led_on } := by
  obtain ⟨pc, f, d, r, t⟩ := s
  simp only at hpc hf
  subst hpc hf
  simp [run, exec, step]

/-! ## The flag check (lines 112-118) under arbitrary preemption -/

theorem check_result_cases (r : cy_rslt_t) (next : Pc) :
    check_result r next = next ∨ check_result r next = Pc.halted := by
  unfold check_result CY_ASSERT
  split
  · right; rfl
  · left; rfl

theorem step_quiet (hal : Hal) (s : State) (h : quiet s) :
    quiet (step hal s) ∧ (step hal s).delay_led_blink = s.delay_led_blink := by
  obtain ⟨pc, f, d, r, t⟩ := s
  obtain ⟨hf, hc, hu⟩ := h
  simp only at hf hc hu
  subst hf
  cases pc
  case bsp_init =>
    rcases check_result_cases hal.cybsp_init Pc.retarget_init with h | h <;>
      simp [step, quiet, h]
  case retarget_init =>
    rcases check_result_cases hal.cy_retarget_io_init Pc.led_init with h | h <;>
      simp [step, quiet, h]
  case led_init =>
    rcases check_result_cases hal.cyhal_gpio_init_led Pc.btn_init with h | h <;>
      simp [step, quiet, h]
  case btn_init =>
    rcases check_result_cases hal.cyhal_gpio_init_btn Pc.register_callback with h | h <;>
      simp [step, quiet, h]
  case clear_flag => exact absurd rfl hc
  case update_delay => exact absurd rfl hu
  all_goals simp [step, quiet]

theorem run_mains_quiet (hal : Hal) (k : Nat) :
    ∀ s : State, quiet s →
      quiet (run hal s (List.replicate k Event.main))
      ∧ (run hal s (List.replicate k Event.main)).delay_led_blink = s.delay_led_blink := by
  induction k with
  | zero => intro s h; exact ⟨h, rfl⟩
  | succ k ih =>
      intro s h
      rw [run_replicate_succ]
      obtain ⟨h1, h2⟩ := step_quiet hal s h
      obtain ⟨h3, h4⟩ := ih _ h1
      exact ⟨h3, h4.trans h2⟩

/-- Without an edge pending or in progress, an unpreempted run reads false at
every flag check. -/
theorem observations_quiet (hal : Hal) (k : Nat) :
    ∀ s : State, quiet s →
      ∀ b ∈ observations hal s (List.replicate k Event.main), b = false := by
  induction k with
  | zero => intro s _ b hb; simp [observations] at hb
  | succ k ih =>
      intro s h b hb
      have hq := (step_quiet hal s h).1
      rw [List.replicate_succ] at hb
      by_cases hp : s.pc = Pc.test_flag
      · simp only [observations, hp, if_true, List.mem_cons] at hb
        rcases hb with rfl | hb
        · exact h.1
        · exact ih _ hq b hb
      · simp only [observations, hp, if_false] at hb
        exact ih _ hq b hb

/-- One unpreempted iteration whose check reads false: five statements. -/
theorem run_iteration_false (hal : Hal) (s : State) (hpc : s.pc = Pc.test_flag)
    (hf : s.gpio_intr_flag = false) :
    run hal s (List.replicate 5 Event.main)
      = { s with trace := s.trace ++ blink s.delay_led_blink } := by
  obtain ⟨pc, f, d, r, t⟩ := s
  simp only at hpc hf
  subst hpc hf
  simp [run, exec, step, blink]

/-- One unpreempted iteration whose check reads true: seven statements. -/
theorem run_iteration_true (hal : Hal) (s : State) (hpc : s.pc = Pc.test_flag)
    (hf : s.gpio_intr_flag = true) :
    run hal s (List.replicate 7 Event.main)
      = { s with gpio_intr_flag := false
                 delay_led_blink := toggle_delay s.delay_led_blink
                 trace := s.trace ++ blink (toggle_delay s.delay_led_blink) } := by
  obtain ⟨pc, f, d, r, t⟩ := s
  simp only at hpc hf
  subst hpc hf
  simp [run, exec, step, blink]

/-- The state at the head of the loop after `n` iterations without any edge. -/
theorem run_no_edges (n : Nat) :
    run hal_ok init (List.replicate (9 + 5 * n) Event.main)
      = { pc := Pc.test_flag, gpio_intr_flag := false, delay_led_blink := DELAY_LONG_MS,
          result := CY_RSLT_SUCCESS,
          trace := setup_trace ++ (List.replicate n (blink DELAY_LONG_MS)).flatten } := by
  induction n with
  | zero => decide
  | succ n ih =>
      have e : 9 + 5 * (n + 1) = (9 + 5 * n) + 5 := by ring
      rw [e, run_replicate_add, ih, run_iteration_false hal_ok _ rfl rfl,
        List.replicate_succ']
      simp

theorem step_after_one_edge (hal : Hal) (s : State) (h : after_one_edge s) :
    after_one_edge (step hal s) := by
  rcases h with ⟨hf, hd, hu⟩ | ⟨hf, hd, hu⟩ | ⟨hf, hd, hc, hu⟩
  · obtain ⟨pc, f, d, r, t⟩ := s
    simp only at hf hd hu
    subst hf hd
    cases pc
    case bsp_init =>
      rcases check_result_cases hal.cybsp_init Pc.retarget_init with h | h <;>
        simp [step, after_one_edge, h]
    case retarget_init =>
      rcases check_result_cases hal.cy_retarget_io_init Pc.led_init with h | h <;>
        simp [step, after_one_edge, h]
    case led_init =>
      rcases check_result_cases hal.cyhal_gpio_init_led Pc.btn_init with h | h <;>
        simp [step, after_one_edge, h]
    case btn_init =>
      rcases check_result_cases hal.cyhal_gpio_init_btn Pc.register_callback with h | h <;>
        simp [step, after_one_edge, h]
    case update_delay => exact absurd rfl hu
    all_goals simp [step, after_one_edge]
  · obtain ⟨pc, f, d, r, t⟩ := s
    simp only at hf hd hu
    subst hf hd hu
    right; right
    simp [step, toggle_delay]
  · have hq : quiet s := ⟨hf, hc, hu⟩
    obtain ⟨⟨q1, q2, q3⟩, q4⟩ := step_quiet hal s hq
    right; right
    exact ⟨q1, q4.trans hd, q2, q3⟩

theorem run_mains_after_one_edge (hal : Hal) (k : Nat) :
    ∀ s : State, after_one_edge s → after_one_edge (run hal s (List.replicate k Event.main)) := by
  induction k with
  | zero => intro s h; exact h
  | succ k ih =>
      intro s h
      rw [run_replicate_succ]
      exact ih _ (step_after_one_edge hal s h)

/-! ## Failing initialisation (lines 57-94) -/

theorem step_failing_inv (hal : Hal)
    (hfail : hal.cybsp_init ≠ CY_RSLT_SUCCESS ∨ hal.cy_retarget_io_init ≠ CY_RSLT_SUCCESS
      ∨ hal.cyhal_gpio_init_led ≠ CY_RSLT_SUCCESS ∨ hal.cyhal_gpio_init_btn ≠ CY_RSLT_SUCCESS)
    (s : State) (m : Nat) (h : failing_inv hal s m) :
    failing_inv hal (step hal s) (m + 1) := by
  obtain ⟨pc, f, d, r, t⟩ := s
  obtain ⟨r1, r2, r3, r4⟩ := hal
  simp only at hfail
  unfold failing_inv at h ⊢
  by_cases h1 : r1 = CY_RSLT_SUCCESS <;> by_cases h2 : r2 = CY_RSLT_SUCCESS <;>
    by_cases h3 : r3 = CY_RSLT_SUCCESS <;> by_cases h4 : r4 = CY_RSLT_SUCCESS <;>
    simp only [h1, h2, h3, h4, ne_eq, not_true_eq_false, not_false_eq_true, or_self,
      or_false, or_true] at hfail <;>
    rcases m with _ | _ | _ | _ | m <;>
    simp [calls_until_failure, setup_trace, h1, h2, h3, h4] at h ⊢ <;>
    obtain ⟨hp, ht⟩ := h <;> subst hp ht <;>
    simp [step, setup_pc, check_result, CY_ASSERT, h1, h2, h3, h4]

theorem run_failing_inv (hal : Hal)
    (hfail : hal.cybsp_init ≠ CY_RSLT_SUCCESS ∨ hal.cy_retarget_io_init ≠ CY_RSLT_SUCCESS
      ∨ hal.cyhal_gpio_init_led ≠ CY_RSLT_SUCCESS ∨ hal.cyhal_gpio_init_btn ≠ CY_RSLT_SUCCESS)
    (sched : List Event) :
    ∀ (s : State) (m : Nat), failing_inv hal s m →
      failing_inv hal (run hal s sched) (m + mains sched) := by
  induction sched with
  | nil => intro s m h; exact h
  | cons e es ih =>
      intro s m h
      cases e with
      | irq ev => exact ih (gpio_interrupt_handler callback_arg ev s) m h
      | main =>
          have := ih (step hal s) (m + 1) (step_failing_inv hal hfail s m h)
          simpa [mains, run_cons, exec, Nat.add_assoc, Nat.add_comm 1] using this

theorem calls_until_failure_cases (hal : Hal) :
    calls_until_failure hal = setup_trace.take 1 ∨ calls_until_failure hal = setup_trace.take 2
    ∨ calls_until_failure hal = setup_trace.take 3
    ∨ calls_until_failure hal = setup_trace.take 4 := by
  unfold calls_until_failure
  split
  · exact Or.inl rfl
  · split
    · exact Or.inr (Or.inl rfl)
    · split
      · exact Or.inr (Or.inr (Or.inl rfl))
      · exact Or.inr (Or.inr (Or.inr rfl))

/-! ## Observed checks and the parity of the interval -/

theorem toggle_interval_after (m : Nat) :
    toggle_delay (interval_after m) = interval_after (m + 1) := by
  unfold interval_after
  rcases Nat.mod_two_eq_zero_or_one m with h | h
  · have h2 : (m + 1) % 2 = 1 := by omega
    simp [h, h2, toggle_delay]
  · have h2 : (m + 1) % 2 = 0 := by omega
    simp [h, h2, toggle_delay, DELAY_LONG_MS, DELAY_SHORT_MS]

theorem interval_after_add_two (m : Nat) : interval_after (m + 2) = interval_after m := by
  unfold interval_after
  have : (m + 2) % 2 = m % 2 := by omega
  rw [this]

theorem step_parity_inv (hal : Hal) (s : State) (m : Nat) (h : parity_inv s m) :
    parity_inv (step hal s)
      (m + (if s.pc = Pc.test_flag ∧ s.gpio_intr_flag = true then 1 else 0)) := by
  obtain ⟨pc, f, d, r, t⟩ := s
  unfold parity_inv at h ⊢
  cases pc
  case bsp_init =>
    rcases check_result_cases hal.cybsp_init Pc.retarget_init with h1 | h1 <;>
      simp [step, h1] at h ⊢ <;> exact h
  case retarget_init =>
    rcases check_result_cases hal.cy_retarget_io_init Pc.led_init with h1 | h1 <;>
      simp [step, h1] at h ⊢ <;> exact h
  case led_init =>
    rcases check_result_cases hal.cyhal_gpio_init_led Pc.btn_init with h1 | h1 <;>
      simp [step, h1] at h ⊢ <;> exact h
  case btn_init =>
    rcases check_result_cases hal.cyhal_gpio_init_btn Pc.register_callback with h1 | h1 <;>
      simp [step, h1] at h ⊢ <;> exact h
  case test_flag =>
    cases f
    · simp [step] at h ⊢; exact h
    · simp [step] at h ⊢; rw [interval_after_add_two]; exact h
  case update_delay =>
    simp [step] at h ⊢
    rw [h, toggle_interval_after, interval_after_add_two]
  all_goals (simp [step] at h ⊢; exact h)

theorem run_parity_inv (hal : Hal) (sched : List Event) :
    ∀ (s : State) (m : Nat), parity_inv s m →
      parity_inv (run hal s sched) (m + (observations hal s sched).count true) := by
  induction sched with
  | nil => intro s m h; simpa [observations, run_nil] using h
  | cons e es ih =>
      intro s m h
      cases e with
      | irq ev =>
          have h1 : parity_inv (gpio_interrupt_handler callback_arg ev s) m := h
          exact ih _ m h1
      | main =>
          have h1 := ih _ _ (step_parity_inv hal s m h)
          rw [run_cons]
          simp only [exec]
          by_cases hp : s.pc = Pc.test_flag
          · cases hf : s.gpio_intr_flag
            · simp only [hp, hf, observations] at h1 ⊢
              simpa using h1
            · simp only [hp, hf, observations] at h1 ⊢
              simp only [and_self, if_true, List.count_cons_self] at h1 ⊢
              have e : m + ((observations hal (step hal s) es).count true + 1)
                  = m + 1 + (observations hal (step hal s) es).count true := by omega
              rw [e]; exact h1
          · simp only [hp, observations, false_and, if_false] at h1 ⊢
            exact h1

/-! ## Edges that arrive one at a time -/

theorem step_edge_inv (hal : Hal) (s : State) (n : Nat) (h : edge_inv s n) :
    edge_inv (step hal s) n := by
  obtain ⟨pc, f, d, r, t⟩ := s
  obtain ⟨h1, h2⟩ := h
  unfold edge_inv owed at *
  simp only at h1 h2
  cases pc
  case bsp_init =>
    rcases check_result_cases hal.cybsp_init Pc.retarget_init with e | e <;>
      simp [step, e] at h2 ⊢ <;> exact h2
  case retarget_init =>
    rcases check_result_cases hal.cy_retarget_io_init Pc.led_init with e | e <;>
      simp [step, e] at h2 ⊢ <;> exact h2
  case led_init =>
    rcases check_result_cases hal.cyhal_gpio_init_led Pc.btn_init with e | e <;>
      simp [step, e] at h2 ⊢ <;> exact h2
  case btn_init =>
    rcases check_result_cases hal.cyhal_gpio_init_btn Pc.register_callback with e | e <;>
      simp [step, e] at h2 ⊢ <;> exact h2
  case test_flag =>
    cases f <;> simp [step] at h2 ⊢ <;> exact h2
  case clear_flag =>
    have hf : f = true := h1 rfl
    subst hf
    simp [step] at h2 ⊢
    exact h2
  case update_delay =>
    simp [step] at h2 ⊢
    rw [h2, toggle_interval_after]
    cases f <;> simp [interval_after_add_two]
  all_goals (simp [step] at h2 ⊢; exact h2)

theorem run_edge_inv (hal : Hal) (sched : List Event) :
    ∀ (s : State) (n : Nat), edge_inv s n → isolated hal s sched = true →
      edge_inv (run hal s sched) (n + edges sched) := by
  induction sched with
  | nil => intro s n h _; exact h
  | cons e es ih =>
      intro s n h hiso
      cases e with
      | main =>
          simp only [isolated] at hiso
          exact ih _ n (step_edge_inv hal s n h) hiso
      | irq ev =>
          simp only [isolated, Bool.and_eq_true, Bool.not_eq_true'] at hiso
          obtain ⟨hf, hrest⟩ := hiso
          have h1 : edge_inv (gpio_interrupt_handler callback_arg ev s) (n + 1) := by
            obtain ⟨pc, f, d, r, t⟩ := s
            simp only at hf
            subst hf
            simp only [edge_inv, owed, gpio_interrupt_handler] at h ⊢
            obtain ⟨_, a2⟩ := h
            refine ⟨fun _ => trivial, ?_⟩
            rw [a2]
            have key : ∀ k : Nat, interval_after (n + (0 + k)) = interval_after (n + 1 + (1 + k)) := by
              intro k
              rw [show n + 1 + (1 + k) = n + (0 + k) + 2 by omega, interval_after_add_two]
            by_cases hp : pc = Pc.update_delay
            · simp only [hp, if_true, Bool.false_eq_true, if_false]
              exact key 1
            · simp only [hp, if_false, if_true, Bool.false_eq_true]
              exact key 0
          have h2 := ih _ (n + 1) h1 hrest
          simp only [edges, run_cons, exec]
          rw [show n + (edges es + 1) = n + 1 + edges es by omega]
          exact h2

/-! ## The log of flag checks -/

theorem step_window_inv (hal : Hal) (s : State) (n : Nat) (h : window_inv s n) :
    window_inv (step hal s) (if s.pc = Pc.test_flag then 0 else n) := by
  obtain ⟨pc, f, d, r, t⟩ := s
  unfold window_inv at *
  cases pc
  case bsp_init =>
    rcases check_result_cases hal.cybsp_init Pc.retarget_init with e | e <;>
      simp [step, e] at h ⊢ <;> exact h
  case retarget_init =>
    rcases check_result_cases hal.cy_retarget_io_init Pc.led_init with e | e <;>
      simp [step, e] at h ⊢ <;> exact h
  case led_init =>
    rcases check_result_cases hal.cyhal_gpio_init_led Pc.btn_init with e | e <;>
      simp [step, e] at h ⊢ <;> exact h
  case btn_init =>
    rcases check_result_cases hal.cyhal_gpio_init_btn Pc.register_callback with e | e <;>
      simp [step, e] at h ⊢ <;> exact h
  case test_flag =>
    cases f <;> simp [step]
  case clear_flag =>
    simp [step] at h ⊢
    exact h.2
  all_goals (simp [step] at h ⊢; exact h)

theorem check_log_sound (hal : Hal) (sched : List Event) :
    ∀ (s : State) (n : Nat), window_inv s n → outside_window hal s sched = true →
      ∀ p ∈ check_log hal s n sched, (p.1 = true ↔ 1 ≤ p.2) := by
  induction sched with
  | nil => intro s n _ _ p hp; simp [check_log] at hp
  | cons e es ih =>
      intro s n h hwin p hp
      cases e with
      | main =>
          simp only [outside_window] at hwin
          have hstep := step_window_inv hal s n h
          by_cases hpc : s.pc = Pc.test_flag
          · simp only [check_log, hpc, if_true, List.mem_cons] at hp hstep
            rcases hp with rfl | hp
            · unfold window_inv at h
              rw [if_neg (by rw [hpc]; decide)] at h
              exact h
            · exact ih _ 0 hstep hwin p hp
          · simp only [check_log, hpc, if_false] at hp hstep
            exact ih _ n hstep hwin p hp
      | irq ev =>
          simp only [outside_window, Bool.and_eq_true, decide_eq_true_eq] at hwin
          obtain ⟨hne, hrest⟩ := hwin
          have h1 : window_inv (gpio_interrupt_handler callback_arg ev s) (n + 1) := by
            unfold window_inv
            have : (gpio_interrupt_handler callback_arg ev s).pc = s.pc := rfl
            rw [this, if_neg hne]
            simp [gpio_interrupt_handler]
          simp only [check_log] at hp
          exact ih _ (n + 1) h1 hrest p hp

/-! ## Every edge outside the window is consumed -/

theorem outside_window_append (hal : Hal) (xs ys : List Event) :
    ∀ s : State, outside_window hal s (xs ++ ys)
      = (outside_window hal s xs && outside_window hal (run hal s xs) ys) := by
  induction xs with
  | nil => intro s; simp [outside_window, run_nil]
  | cons e es ih =>
      intro s
      cases e with
      | main => simp only [List.cons_append, outside_window, run_cons, exec]; exact ih _
      | irq ev =>
          have h := ih (gpio_interrupt_handler callback_arg ev s)
          simp only [List.cons_append, outside_window, run_cons, exec]
          rw [Bool.and_assoc]
          exact congrArg (fun b => decide (s.pc ≠ Pc.clear_flag) && b) h

/-- From line 117, the update is executed as soon as `main` runs one more
statement, whatever edges arrive before it. -/
theorem update_completes (hal : Hal) (es : List Event) :
    ∀ s : State, s.pc = Pc.update_delay → 1 ≤ mains es →
      ∃ p2 rest : List Event, es = p2 ++ rest ∧ mains p2 = 1
        ∧ (run hal s p2).pc = Pc.led_on
        ∧ (run hal s p2).delay_led_blink = toggle_delay s.delay_led_blink := by
  induction es with
  | nil => intro s _ h; simp [mains] at h
  | cons e es ih =>
      intro s hpc hm
      cases e with
      | irq ev =>
          simp only [mains] at hm
          obtain ⟨p2, rest, h1, h2, h3, h4⟩ :=
            ih (gpio_interrupt_handler callback_arg ev s) hpc hm
          exact ⟨Event.irq ev :: p2, rest, by rw [h1]; rfl, h2, h3, h4⟩
      | main =>
          refine ⟨[Event.main], es, rfl, rfl, ?_, ?_⟩
          · simp [run, exec, step, hpc]
          · simp [run, exec, step, hpc]

/-- From line 114, with no edge delivered before the write, the check is
completed as soon as `main` runs two more statements. -/
theorem clear_completes (hal : Hal) (es : List Event) (s : State)
    (hpc : s.pc = Pc.clear_flag) (hwin : outside_window hal s es = true)
    (hm : 2 ≤ mains es) :
    ∃ p2 rest : List Event, es = p2 ++ rest ∧ mains p2 = 2
      ∧ (run hal s p2).pc = Pc.led_on
      ∧ (run hal s p2).delay_led_blink = toggle_delay s.delay_led_blink := by
  cases es with
  | nil => simp [mains] at hm
  | cons e es =>
      cases e with
      | irq ev => simp [outside_window, hpc] at hwin
      | main =>
          simp only [mains] at hm
          have hs : (step hal s).pc = Pc.update_delay := by simp [step, hpc]
          have hd : (step hal s).delay_led_blink = s.delay_led_blink := by simp [step, hpc]
          obtain ⟨p2, rest, h1, h2, h3, h4⟩ :=
            update_completes hal es (step hal s) hs (by omega)
          refine ⟨Event.main :: p2, rest, by rw [h1]; rfl, ?_, h3, ?_⟩
          · simp only [mains, h2]
          · rw [run_cons]; simp only [exec]; rw [h4, hd]

/-- A statement of `main` other than the read of line 112 and the write of
line 114, at a program point after line 103: the flag is kept, and the next
program point is one statement nearer to line 112 and is not line 114. -/
theorem step_towards_test (hal : Hal) (s : State) (hen : irq_enabled s.pc = true)
    (ht : s.pc ≠ Pc.test_flag) (hc : s.pc ≠ Pc.clear_flag) :
    (step hal s).gpio_intr_flag = s.gpio_intr_flag
    ∧ irq_enabled (step hal s).pc = true
    ∧ (step hal s).pc ≠ Pc.clear_flag
    ∧ steps_to_test (step hal s).pc + 1 = steps_to_test s.pc := by
  obtain ⟨pc, f, d, r, t⟩ := s
  cases pc <;> simp [irq_enabled] at hen <;> simp at ht hc <;>
    simp [step, irq_enabled, steps_to_test]

/-- An edge pending at a program point after line 103 other than line 114 is
observed by the first read of line 112 that follows, and that check toggles
the interval, provided `main` runs long enough and no edge is delivered
between a read of true and the write of false. -/
theorem pending_edge_consumed (hal : Hal) (post : List Event) :
    ∀ s : State, s.gpio_intr_flag = true → irq_enabled s.pc = true →
      s.pc ≠ Pc.clear_flag → outside_window hal s post = true →
      steps_to_test s.pc + 3 ≤ mains post →
      ∃ p1 p2 rest : List Event,
        post = p1 ++ Event.main :: p2 ++ rest
        ∧ observations hal s p1 = []
        ∧ (run hal s p1).pc = Pc.test_flag
        ∧ (run hal s p1).gpio_intr_flag = true
        ∧ mains p2 = 2
        ∧ (run hal s (p1 ++ Event.main :: p2)).pc = Pc.led_on
        ∧ (run hal s (p1 ++ Event.main :: p2)).delay_led_blink
            = toggle_delay (run hal s p1).delay_led_blink := by
  induction post with
  | nil => intro s _ _ _ _ h; simp [mains] at h
  | cons e es ih =>
      intro s hf hen hc hwin hm
      cases e with
      | irq ev =>
          simp only [outside_window, Bool.and_eq_true] at hwin
          simp only [mains] at hm
          obtain ⟨p1, p2, rest, h1, h2, h3, h4, h5, h6, h7⟩ :=
            ih (gpio_interrupt_handler callback_arg ev s) rfl hen hc hwin.2 hm
          refine ⟨Event.irq ev :: p1, p2, rest, by rw [h1]; rfl, ?_, h3, h4, h5, h6, h7⟩
          simp only [observations]; exact h2
      | main =>
          simp only [outside_window] at hwin
          simp only [mains] at hm
          by_cases ht : s.pc = Pc.test_flag
          · have hs : step hal s = { s with pc := Pc.clear_flag } := by
              obtain ⟨pc, f, d, r, t⟩ := s
              simp only at ht hf
              subst ht hf
              simp [step]
            have hs1 : (step hal s).pc = Pc.clear_flag := by rw [hs]
            obtain ⟨p2, rest, h1, h2, h3, h4⟩ :=
              clear_completes hal es (step hal s) hs1 hwin (by omega)
            refine ⟨[], p2, rest, by rw [h1]; rfl, rfl, ht, hf, h2, ?_, ?_⟩
            · exact h3
            · simp only [List.nil_append, run_cons, exec, run_nil]
              rw [h4, hs]
          · obtain ⟨a1, a2, a3, a4⟩ := step_towards_test hal s hen ht hc
            obtain ⟨p1, p2, rest, h1, h2, h3, h4, h5, h6, h7⟩ :=
              ih (step hal s) (a1.trans hf) a2 a3 hwin (by omega)
            refine ⟨Event.main :: p1, p2, rest, by rw [h1]; rfl, ?_, h3, h4, h5, h6, h7⟩
            simp only [observations, ht, if_false]; exact h2

theorem steps_to_test_le (pc : Pc) : steps_to_test pc ≤ 6 := by
  cases pc <;> simp [steps_to_test]

/-! ## The claims -/

/-- C8: for every prior state and every value of its two arguments,
`gpio_interrupt_handler` sets `gpio_intr_flag` to true and changes nothing
else: the program point of `main`, `delay_led_blink`, `result` and the trace of
platform calls (so no LED write, no delay, no other I/O) are as before; the
outcome does not depend on the arguments nor on the blink interval it was
called with; it is a total function; and invoking it twice gives the same
state as invoking it once. -/
theorem C8_handler_sets_flag_only (handler_arg : Nat) (event : cyhal_gpio_event_t)
    (s : State) :
    (gpio_interrupt_handler handler_arg event s).gpio_intr_flag = true
    ∧ (gpio_interrupt_handler handler_arg event s).delay_led_blink = s.delay_led_blink
    ∧ (gpio_interrupt_handler handler_arg event s).trace = s.trace
    ∧ (gpio_interrupt_handler handler_arg event s).pc = s.pc
    ∧ (gpio_interrupt_handler handler_arg event s).result = s.result
    ∧ (∀ (a : Nat) (e : cyhal_gpio_event_t),
        gpio_interrupt_handler a e s = gpio_interrupt_handler handler_arg event s)
    ∧ (∀ (d : Nat) (t : List Action),
        gpio_interrupt_handler handler_arg event { s with delay_led_blink := d, trace := t }
          = { gpio_interrupt_handler handler_arg event s with delay_led_blink := d, trace := t })
    ∧ (∀ (a : Nat) (e : cyhal_gpio_event_t),
        gpio_interrupt_handler a e (gpio_interrupt_handler handler_arg event s)
          = gpio_interrupt_handler handler_arg event s) := by
  refine ⟨rfl, rfl, rfl, rfl, rfl, ?_, ?_, ?_⟩
  · intro a e; rfl
  · intro d t; rfl
  · intro a e; rfl

/-- C10: in every state reachable from the start of `main` under any schedule of
statements and handler invocations and any initialisation results,
`delay_led_blink` is 500 or 250; both values are reached; the toggle of
line 117 maps 500 to 250 and 250 to 500; and applying it twice to the interval
of a reachable state gives that interval back. -/
theorem C10_interval_two_valued (hal : Hal) (sched : List Event) :
    ((run hal init sched).delay_led_blink = 500 ∨ (run hal init sched).delay_led_blink = 250)
    ∧ (run hal_ok init []).delay_led_blink = 500
    ∧ (run hal_ok init (List.replicate 9 Event.main
        ++ [Event.irq 0, Event.main, Event.main, Event.main])).delay_led_blink = 250
    ∧ toggle_delay 500 = 250
    ∧ toggle_delay 250 = 500
    ∧ toggle_delay (toggle_delay (run hal init sched).delay_led_blink)
        = (run hal init sched).delay_led_blink
    ∧ (∀ s : State, s.pc = Pc.update_delay →
        (step hal s).delay_led_blink = toggle_delay s.delay_led_blink) := by
  have h := run_delay_two_valued hal sched init (Or.inl rfl)
  refine ⟨h, by decide, by decide, by decide, by decide,
    toggle_delay_involutive _ h, ?_⟩
  intro s hs
  simp [step, hs]

/-- C2: coalescing. From the end of a flag check (line 120), with either
interval value and any flag value, let the loop run to its next check while the
handler is invoked `k ≥ 1` times at any points in between; the next check
(lines 112-117) then leaves `gpio_intr_flag` false and toggles `delay_led_blink`
exactly once (500 becomes 250, 250 becomes 500), and the resulting state is the
one every schedule with a single invocation yields. -/
theorem C2_coalescing (hal : Hal) (s : State) (sched : List Event)
    (hpc : s.pc = Pc.led_on) (hm : mains sched = 4) (hk : 1 ≤ edges sched) :
    (run hal s (sched ++ [Event.main, Event.main, Event.main])).gpio_intr_flag = false
    ∧ (s.delay_led_blink = 500 →
        (run hal s (sched ++ [Event.main, Event.main, Event.main])).delay_led_blink = 250)
    ∧ (s.delay_led_blink = 250 →
        (run hal s (sched ++ [Event.main, Event.main, Event.main])).delay_led_blink = 500)
    ∧ (∀ one : List Event, mains one = 4 → edges one = 1 →
        run hal s (sched ++ [Event.main, Event.main, Event.main])
          = run hal s (one ++ [Event.main, Event.main, Event.main])) := by
  have key : ∀ sc : List Event, mains sc = 4 → 1 ≤ edges sc →
      run hal s (sc ++ [Event.main, Event.main, Event.main])
        = { s with pc := Pc.led_on, gpio_intr_flag := false,
                   delay_led_blink := toggle_delay s.delay_led_blink,
                   trace := s.trace ++ blink s.delay_led_blink } := by
    intro sc h4 h1
    obtain ⟨a1, a2, a3, a4, a5⟩ := run_blink_phase hal sc s hpc h4
    have hflag : (run hal s sc).gpio_intr_flag = true := by
      rw [a4]; simp; right; omega
    rw [run_append, run_check_true hal _ a1 hflag]
    cases hr : run hal s sc with
    | mk pc f d r t =>
        rw [hr] at a2 a3 a5
        simp only at a2 a3 a5
        subst a2 a3 a5
        rfl
  rw [key sched hm hk]
  refine ⟨rfl, ?_, ?_, ?_⟩
  · intro h; simp only [h]; decide
  · intro h; simp only [h]; decide
  · intro one h4 h1
    rw [key one h4 (by omega)]

/-- C2 at a concrete input: after a successful setup and a first check that saw
no edge (interval 500), two edges before the next check give 250. -/
theorem C2_coalescing_witness :
    (run hal_ok init (List.replicate 10 Event.main)).pc = Pc.led_on
    ∧ mains [Event.main, Event.irq 2, Event.main, Event.irq 2, Event.main, Event.main] = 4
    ∧ edges [Event.main, Event.irq 2, Event.main, Event.irq 2, Event.main, Event.main] = 2
    ∧ (run hal_ok (run hal_ok init (List.replicate 10 Event.main))
        ([Event.main, Event.irq 2, Event.main, Event.irq 2, Event.main, Event.main]
          ++ [Event.main, Event.main, Event.main])).delay_led_blink = 250 :=
  ⟨by decide, by decide, by decide,
    (C2_coalescing hal_ok (run hal_ok init (List.replicate 10 Event.main))
      [Event.main, Event.irq 2, Event.main, Event.irq 2, Event.main, Event.main]
      (by decide) (by decide) (by decide)).2.1 (by decide)⟩

/-- C6: when every initialisation call succeeds and the handler is never invoked,
then for every `n` the state at the head of the loop after `n` iterations has
the trace of the setup calls followed by exactly (LED on, delay 500, LED off,
delay 500) `n` times, and after any number of statements `delay_led_blink` is
500 and `gpio_intr_flag` is false. -/
theorem C6_no_edges_blink_long (n : Nat) :
    (run hal_ok init (List.replicate (9 + 5 * n) Event.main)).pc = Pc.test_flag
    ∧ (run hal_ok init (List.replicate (9 + 5 * n) Event.main)).trace
        = setup_trace ++ (List.replicate n
            [ Action.cyhal_gpio_write Pin.CYBSP_LED2 PinValue.CYBSP_LED_STATE_ON
            , Action.cyhal_system_delay_ms 500
            , Action.cyhal_gpio_write Pin.CYBSP_LED2 PinValue.CYBSP_LED_STATE_OFF
            , Action.cyhal_system_delay_ms 500 ]).flatten
    ∧ (∀ k : Nat,
        (run hal_ok init (List.replicate k Event.main)).delay_led_blink = 500
        ∧ (run hal_ok init (List.replicate k Event.main)).gpio_intr_flag = false) := by
  refine ⟨by rw [run_no_edges], by rw [run_no_edges]; rfl, ?_⟩
  intro k
  have hq : quiet init := ⟨rfl, by decide, by decide⟩
  obtain ⟨⟨h1, _, _⟩, h2⟩ := run_mains_quiet hal_ok k init hq
  exact ⟨h2, h1⟩

/-- C7: start `main` in its initial state (interval 500, flag false) and let a
single edge arrive after `a` statements. Whenever the loop is afterwards at the
read of line 112 (`c` statements later), the iteration that starts there makes
exactly the calls LED on, delay 250, LED off, delay 250, and ends at line 112
again with interval 250 and the flag false. -/
theorem C7_one_edge_blink_short (hal : Hal) (a c : Nat) (event : cyhal_gpio_event_t)
    (hpc : (run hal init (List.replicate a Event.main
              ++ Event.irq event :: List.replicate c Event.main)).pc = Pc.test_flag) :
    (run hal init (List.replicate a Event.main
        ++ Event.irq event :: List.replicate c Event.main
        ++ List.replicate (iteration_length (run hal init (List.replicate a Event.main
              ++ Event.irq event :: List.replicate c Event.main))) Event.main)).trace
      = (run hal init (List.replicate a Event.main
            ++ Event.irq event :: List.replicate c Event.main)).trace
          ++ [ Action.cyhal_gpio_write Pin.CYBSP_LED2 PinValue.CYBSP_LED_STATE_ON
             , Action.cyhal_system_delay_ms 250
             , Action.cyhal_gpio_write Pin.CYBSP_LED2 PinValue.CYBSP_LED_STATE_OFF
             , Action.cyhal_system_delay_ms 250 ]
    ∧ (run hal init (List.replicate a Event.main
        ++ Event.irq event :: List.replicate c Event.main
        ++ List.replicate (iteration_length (run hal init (List.replicate a Event.main
              ++ Event.irq event :: List.replicate c Event.main))) Event.main)).pc
        = Pc.test_flag
    ∧ (run hal init (List.replicate a Event.main
        ++ Event.irq event :: List.replicate c Event.main
        ++ List.replicate (iteration_length (run hal init (List.replicate a Event.main
              ++ Event.irq event :: List.replicate c Event.main))) Event.main)).delay_led_blink
        = 250
    ∧ (run hal init (List.replicate a Event.main
        ++ Event.irq event :: List.replicate c Event.main
        ++ List.replicate (iteration_length (run hal init (List.replicate a Event.main
              ++ Event.irq event :: List.replicate c Event.main))) Event.main)).gpio_intr_flag
        = false := by
  have hq : quiet init := ⟨rfl, by decide, by decide⟩
  obtain ⟨⟨q1, q2, q3⟩, q4⟩ := run_mains_quiet hal a init hq
  have h0 : after_one_edge
      (gpio_interrupt_handler callback_arg event (run hal init (List.replicate a Event.main))) :=
    Or.inl ⟨rfl, q4, q3⟩
  have h1 := run_mains_after_one_edge hal c _ h0
  have e : run hal init (List.replicate a Event.main
      ++ Event.irq event :: List.replicate c Event.main)
      = run hal (gpio_interrupt_handler callback_arg event
          (run hal init (List.replicate a Event.main))) (List.replicate c Event.main) := by
    rw [run_append, run_cons]; rfl
  rw [run_append]
  rw [e] at hpc ⊢
  generalize run hal (gpio_interrupt_handler callback_arg event
    (run hal init (List.replicate a Event.main))) (List.replicate c Event.main) = s1 at hpc h1 ⊢
  rcases h1 with ⟨hf, hd, _⟩ | ⟨_, _, hu⟩ | ⟨hf, hd, _, _⟩
  · have hl : iteration_length s1 = 7 := by simp [iteration_length, hf]
    rw [hl, run_iteration_true hal s1 hpc hf, hd]
    exact ⟨rfl, hpc, rfl, rfl⟩
  · rw [hu] at hpc; cases hpc
  · have hl : iteration_length s1 = 5 := by simp [iteration_length, hf]
    rw [hl, run_iteration_false hal s1 hpc hf, hd]
    exact ⟨rfl, hpc, rfl, hf⟩

/-- C7 at a concrete input: the edge arrives during the first delay of the first
iteration; the next iteration blinks at 250. -/
theorem C7_one_edge_blink_short_witness :
    (run hal_ok init (List.replicate 11 Event.main
        ++ Event.irq 2 :: List.replicate 3 Event.main)).pc = Pc.test_flag
    ∧ (run hal_ok init (List.replicate 11 Event.main
        ++ Event.irq 2 :: List.replicate 3 Event.main
        ++ List.replicate (iteration_length (run hal_ok init (List.replicate 11 Event.main
              ++ Event.irq 2 :: List.replicate 3 Event.main))) Event.main)).trace
      = (run hal_ok init (List.replicate 11 Event.main
            ++ Event.irq 2 :: List.replicate 3 Event.main)).trace
          ++ [ Action.cyhal_gpio_write Pin.CYBSP_LED2 PinValue.CYBSP_LED_STATE_ON
             , Action.cyhal_system_delay_ms 250
             , Action.cyhal_gpio_write Pin.CYBSP_LED2 PinValue.CYBSP_LED_STATE_OFF
             , Action.cyhal_system_delay_ms 250 ] :=
  ⟨by decide, (C7_one_edge_blink_short hal_ok 11 3 2 (by decide)).1⟩

/-- C5: if any of the four checked initialisation calls returns a result other
than `CY_RSLT_SUCCESS`, then under every schedule: the platform calls made are
an initial segment of the calls up to and including the first failing one (no
later setup step runs), `main` is never at a program point of the loop, the
LED pin is never written (so never driven to the ON level), and as soon as
`main` has executed as many statements as there are calls up to the failing
one it is halted, having made exactly those calls. -/
theorem C5_init_failure_halts (hal : Hal) (sched : List Event)
    (hfail : hal.cybsp_init ≠ CY_RSLT_SUCCESS ∨ hal.cy_retarget_io_init ≠ CY_RSLT_SUCCESS
      ∨ hal.cyhal_gpio_init_led ≠ CY_RSLT_SUCCESS ∨ hal.cyhal_gpio_init_btn ≠ CY_RSLT_SUCCESS) :
    (run hal init sched).trace <+: calls_until_failure hal
    ∧ in_loop (run hal init sched).pc = false
    ∧ (∀ value : PinValue,
        Action.cyhal_gpio_write Pin.CYBSP_LED2 value ∉ (run hal init sched).trace)
    ∧ ((calls_until_failure hal).length ≤ mains sched →
        (run hal init sched).pc = Pc.halted
        ∧ (run hal init sched).trace = calls_until_failure hal)
    ∧ (calls_until_failure hal).length ≤ 4 := by
  have h0 : failing_inv hal init 0 := by
    unfold failing_inv
    rcases calls_until_failure_cases hal with h | h | h | h <;> rw [h] <;>
      simp [setup_trace, init, setup_pc]
  have hinv := run_failing_inv hal hfail sched init 0 h0
  rw [Nat.zero_add] at hinv
  unfold failing_inv at hinv
  have hpre : (run hal init sched).trace <+: calls_until_failure hal := by
    split at hinv
    · next hlt =>
        rw [hinv.2]
        rcases calls_until_failure_cases hal with h | h | h | h <;> rw [h] at hlt ⊢ <;>
          exact List.take_prefix_take_left _ (by simp [setup_trace] at hlt; omega)
    · rw [hinv.2]
  have hlen : (calls_until_failure hal).length ≤ 4 := by
    rcases calls_until_failure_cases hal with h | h | h | h <;> rw [h] <;> simp
  refine ⟨hpre, ?_, ?_, ?_, hlen⟩
  · split at hinv
    · next hlt =>
        rw [hinv.1]
        have : mains sched < 4 := by omega
        match mains sched, this with
        | 0, _ => rfl
        | 1, _ => rfl
        | 2, _ => rfl
        | 3, _ => rfl
    · rw [hinv.1]; rfl
  · intro value hmem
    have h1 : Action.cyhal_gpio_write Pin.CYBSP_LED2 value ∈ calls_until_failure hal :=
      hpre.subset hmem
    rcases calls_until_failure_cases hal with h | h | h | h <;> rw [h] at h1 <;>
      simp [setup_trace] at h1
  · intro hle
    rw [if_neg (by omega)] at hinv
    exact hinv

/-- C5 at a concrete input: the button initialisation fails (result 1) after
three successful calls; after four statements and an attempted edge `main` is
halted with only the four initialisation calls made. -/
theorem C5_init_failure_halts_witness :
    (run ⟨0, 0, 0, 1⟩ init
        [Event.main, Event.main, Event.main, Event.main, Event.irq 2, Event.main]).pc
      = Pc.halted
    ∧ (run ⟨0, 0, 0, 1⟩ init
        [Event.main, Event.main, Event.main, Event.main, Event.irq 2, Event.main]).trace
      = calls_until_failure ⟨0, 0, 0, 1⟩ :=
  (C5_init_failure_halts ⟨0, 0, 0, 1⟩
    [Event.main, Event.main, Event.main, Event.main, Event.irq 2, Event.main]
    (Or.inr (Or.inr (Or.inr (by decide))))).2.2.2.1 (by decide)

/-- C3: under every schedule and any initialisation results, when no flag check
is in progress (the loop is not between the read of line 112 and the update of
line 117) and `m` of the reads of line 112 so far returned true,
`delay_led_blink` is 500 if `m` is even and 250 if `m` is odd; it is 500 as
long as no check has been made, in particular when the loop is first entered;
and a check that reads false goes straight to line 120 and leaves
`delay_led_blink` and the flag unchanged. -/
theorem C3_interval_parity_of_observed (hal : Hal) (sched : List Event)
    (hc : (run hal init sched).pc ≠ Pc.clear_flag)
    (hu : (run hal init sched).pc ≠ Pc.update_delay) :
    ((observations hal init sched).count true % 2 = 0 →
        (run hal init sched).delay_led_blink = 500)
    ∧ ((observations hal init sched).count true % 2 = 1 →
        (run hal init sched).delay_led_blink = 250)
    ∧ (observations hal init sched = [] → (run hal init sched).delay_led_blink = 500)
    ∧ (∀ s : State, s.pc = Pc.test_flag → s.gpio_intr_flag = false →
        (step hal s).delay_led_blink = s.delay_led_blink
        ∧ (step hal s).gpio_intr_flag = false
        ∧ (step hal s).pc = Pc.led_on
        ∧ (step hal s).trace = s.trace) := by
  have h0 : parity_inv init 0 := by
    unfold parity_inv; simp [init, interval_after]
  have h := run_parity_inv hal sched init 0 h0
  unfold parity_inv at h
  rw [if_neg (by simp [hc, hu]), Nat.zero_add] at h
  refine ⟨?_, ?_, ?_, ?_⟩
  · intro he; rw [h]; simp [interval_after, he, DELAY_LONG_MS]
  · intro ho; rw [h]; simp [interval_after, ho, DELAY_SHORT_MS]
  · intro hn; rw [h, hn]; simp [interval_after, DELAY_LONG_MS]
  · intro s hp hf
    obtain ⟨pc, f, d, r, t⟩ := s
    simp only at hp hf
    subst hp hf
    simp [step]

/-- C3 at a concrete input: three checks, of which the first and the third read
true (one edge before each), leave the interval at 500. -/
theorem C3_interval_parity_of_observed_witness :
    (observations hal_ok init (List.replicate 9 Event.main
        ++ Event.irq 2 :: List.replicate 12 Event.main
        ++ Event.irq 2 :: List.replicate 3 Event.main)).count true % 2 = 0
    ∧ (run hal_ok init (List.replicate 9 Event.main
        ++ Event.irq 2 :: List.replicate 12 Event.main
        ++ Event.irq 2 :: List.replicate 3 Event.main)).delay_led_blink = 500 :=
  ⟨by decide,
    (C3_interval_parity_of_observed hal_ok (List.replicate 9 Event.main
        ++ Event.irq 2 :: List.replicate 12 Event.main
        ++ Event.irq 2 :: List.replicate 3 Event.main) (by decide) (by decide)).1 (by decide)⟩

/-- C1, counterexample: two edges are delivered during one blink; after the
next flag check has been performed (the loop is at line 120, the flag is
false) the interval is 250, not the 500 the claim gives for an even number of
edges. -/
theorem C1_counterexample :
    edges two_edges_one_check = 2
    ∧ observations hal_ok init two_edges_one_check = [false, true]
    ∧ (run hal_ok init two_edges_one_check).pc = Pc.led_on
    ∧ (run hal_ok init two_edges_one_check).gpio_intr_flag = false
    ∧ (run hal_ok init two_edges_one_check).delay_led_blink = 250
    ∧ ¬ ((run hal_ok init two_edges_one_check).delay_led_blink
          = if edges two_edges_one_check % 2 = 0 then 500 else 250) := by
  decide

/-- C1, amended: for every schedule in which each edge is delivered while
`gpio_intr_flag` is false (the previous edge has been cleared by a flag check
before the next one arrives), once the flag is false again and the update of
line 117 is not outstanding, `delay_led_blink` is 500 if the number of edges is
even and 250 if it is odd. -/
theorem C1_isolated_edges_parity (hal : Hal) (sched : List Event)
    (hiso : isolated hal init sched = true)
    (hflag : (run hal init sched).gpio_intr_flag = false)
    (hupd : (run hal init sched).pc ≠ Pc.update_delay) :
    (run hal init sched).delay_led_blink = if edges sched % 2 = 0 then 500 else 250 := by
  have h0 : edge_inv init 0 := by
    unfold edge_inv owed
    simp [init, interval_after]
  obtain ⟨_, h⟩ := run_edge_inv hal sched init 0 h0 hiso
  rw [h]
  unfold owed
  simp [hflag, hupd, interval_after, DELAY_LONG_MS, DELAY_SHORT_MS]

/-- C1, amended, at a concrete input: three edges, each followed by a flag check
before the next, leave the interval at 250. -/
theorem C1_isolated_edges_parity_witness :
    isolated hal_ok init (List.replicate 9 Event.main
        ++ Event.irq 2 :: List.replicate 7 Event.main
        ++ Event.irq 2 :: List.replicate 7 Event.main
        ++ Event.irq 2 :: List.replicate 3 Event.main) = true
    ∧ (run hal_ok init (List.replicate 9 Event.main
        ++ Event.irq 2 :: List.replicate 7 Event.main
        ++ Event.irq 2 :: List.replicate 7 Event.main
        ++ Event.irq 2 :: List.replicate 3 Event.main)).delay_led_blink
      = if edges (List.replicate 9 Event.main
        ++ Event.irq 2 :: List.replicate 7 Event.main
        ++ Event.irq 2 :: List.replicate 7 Event.main
        ++ Event.irq 2 :: List.replicate 3 Event.main) % 2 = 0 then 500 else 250 :=
  ⟨by decide,
    C1_isolated_edges_parity hal_ok (List.replicate 9 Event.main
        ++ Event.irq 2 :: List.replicate 7 Event.main
        ++ Event.irq 2 :: List.replicate 7 Event.main
        ++ Event.irq 2 :: List.replicate 3 Event.main) (by decide) (by decide) (by decide)⟩

/-- C9, counterexample: the second edge is delivered between the read of true at
line 112 and the write of false at line 114, which erases it: the next flag
check reads false although one edge has occurred since the previous check, the
two edges cause a single toggle, and however long the loop runs on after the
second edge (the state at line 114 with the flag set) no flag check reads
true. -/
theorem C9_counterexample :
    check_log hal_ok init 0 edge_in_window = [(true, 1), (false, 1)]
    ∧ edges edge_in_window = 2
    ∧ (run hal_ok init edge_in_window).delay_led_blink = 250
    ∧ ¬ (∀ p ∈ check_log hal_ok init 0 edge_in_window, (p.1 = true ↔ 1 ≤ p.2))
    ∧ (run hal_ok init (List.replicate 9 Event.main
          ++ [Event.irq 2, Event.main, Event.irq 2])).pc = Pc.clear_flag
    ∧ (∀ k : Nat, ∀ b ∈ observations hal_ok
          (run hal_ok init (List.replicate 9 Event.main
            ++ [Event.irq 2, Event.main, Event.irq 2]))
          (List.replicate k Event.main), b = false) := by
  refine ⟨by decide, by decide, by decide, by decide, by decide, ?_⟩
  have hs : run hal_ok init (List.replicate 9 Event.main
      ++ [Event.irq 2, Event.main, Event.irq 2])
      = { pc := Pc.clear_flag, gpio_intr_flag := true, delay_led_blink := DELAY_LONG_MS,
          result := CY_RSLT_SUCCESS, trace := setup_trace } := by decide
  rw [hs]
  intro k b hb
  match k, hb with
  | 0, hb => simp [observations] at hb
  | 1, hb => simp [observations] at hb
  | k + 2, hb =>
      rw [List.replicate_succ, List.replicate_succ] at hb
      simp only [observations, step, reduceCtorEq, if_false] at hb
      have hq : quiet ⟨Pc.led_on, false, toggle_delay DELAY_LONG_MS, CY_RSLT_SUCCESS,
          setup_trace⟩ := ⟨rfl, by decide, by decide⟩
      exact observations_quiet hal_ok k _ hq b hb

/-- C9, amended: take any schedule in which no edge is delivered between a read
of true at line 112 and the write of false at line 114, the handler being free
to run at every other statement boundary. Then every read of line 112 returns
true if and only if at least one edge has been delivered since the previous
read (since the start of `main` for the first read); and no edge is lost:
every edge of the schedule that is delivered once interrupts are enabled
(after line 103) and after which `main` executes at least eight more
statements is followed by a flag check that observes the flag true (it is the
first read of line 112 after the edge) and toggles the interval, 500 to 250
or 250 to 500. -/
theorem C9_no_edge_lost_outside_window (hal : Hal) (sched : List Event)
    (hwin : outside_window hal init sched = true) :
    (∀ p ∈ check_log hal init 0 sched, (p.1 = true ↔ 1 ≤ p.2))
    ∧ (∀ (pre post : List Event) (event : cyhal_gpio_event_t),
        sched = pre ++ Event.irq event :: post →
        irq_enabled (run hal init pre).pc = true →
        8 ≤ mains post →
        edge_consumed hal (run hal init (pre ++ [Event.irq event])) post) := by
  have h0 : window_inv init 0 := by
    unfold window_inv
    simp [init]
  refine ⟨check_log_sound hal sched init 0 h0 hwin, ?_⟩
  intro pre post event hs hen hm
  subst hs
  rw [outside_window_append] at hwin
  simp only [outside_window, Bool.and_eq_true, decide_eq_true_eq] at hwin
  obtain ⟨_, hc, hpost⟩ := hwin
  have hrun : run hal init (pre ++ [Event.irq event])
      = gpio_interrupt_handler callback_arg event (run hal init pre) := by
    rw [run_append]; rfl
  rw [hrun]
  have hle := steps_to_test_le (run hal init pre).pc
  have hne : steps_to_test (run hal init pre).pc ≠ 6 := by
    intro h6
    apply hc
    generalize (run hal init pre).pc = q at h6 ⊢
    cases q <;> first | rfl | simp [steps_to_test] at h6
  obtain ⟨p1, p2, rest, h1, h2, h3, h4, h5, h6, h7⟩ :=
    pending_edge_consumed hal post
      (gpio_interrupt_handler callback_arg event (run hal init pre)) rfl hen hc hpost
      (by
        have : (gpio_interrupt_handler callback_arg event (run hal init pre)).pc
            = (run hal init pre).pc := rfl
        rw [this]; omega)
  refine ⟨p1, p2, rest, h1, h2, h3, h4, h5, h6, ?_⟩
  have htwo : (run hal (gpio_interrupt_handler callback_arg event (run hal init pre))
        p1).delay_led_blink = DELAY_LONG_MS
      ∨ (run hal (gpio_interrupt_handler callback_arg event (run hal init pre))
        p1).delay_led_blink = DELAY_SHORT_MS :=
    run_delay_two_valued hal p1 _ (run_delay_two_valued hal pre init (Or.inl rfl))
  rw [h7]
  rcases htwo with h | h
  · left; rw [h]; exact ⟨rfl, by decide⟩
  · right; rw [h]; exact ⟨rfl, by decide⟩

/-- C9, amended, at a concrete input: an edge during the first delay of the
first iteration and two edges during a later delay, none between a read of true
and the write of false; the log of the four checks is as the claim says, and
the first edge is consumed by the check that follows it. -/
theorem C9_no_edge_lost_outside_window_witness :
    outside_window hal_ok init (List.replicate 11 Event.main
        ++ Event.irq 2 :: (List.replicate 7 Event.main
        ++ Event.irq 2 :: Event.irq 2 :: List.replicate 11 Event.main)) = true
    ∧ check_log hal_ok init 0 (List.replicate 11 Event.main
        ++ Event.irq 2 :: (List.replicate 7 Event.main
        ++ Event.irq 2 :: Event.irq 2 :: List.replicate 11 Event.main))
      = [(false, 0), (true, 1), (true, 2), (false, 0)]
    ∧ (∀ p ∈ check_log hal_ok init 0 (List.replicate 11 Event.main
        ++ Event.irq 2 :: (List.replicate 7 Event.main
        ++ Event.irq 2 :: Event.irq 2 :: List.replicate 11 Event.main)),
        (p.1 = true ↔ 1 ≤ p.2))
    ∧ edge_consumed hal_ok (run hal_ok init (List.replicate 11 Event.main ++ [Event.irq 2]))
        (List.replicate 7 Event.main
          ++ Event.irq 2 :: Event.irq 2 :: List.replicate 11 Event.main) :=
  ⟨by decide, by decide,
    (C9_no_edge_lost_outside_window hal_ok (List.replicate 11 Event.main
        ++ Event.irq 2 :: (List.replicate 7 Event.main
        ++ Event.irq 2 :: Event.irq 2 :: List.replicate 11 Event.main)) (by decide)).1,
    (C9_no_edge_lost_outside_window hal_ok (List.replicate 11 Event.main
        ++ Event.irq 2 :: (List.replicate 7 Event.main
        ++ Event.irq 2 :: Event.irq 2 :: List.replicate 11 Event.main)) (by decide)).2
      (List.replicate 11 Event.main)
      (List.replicate 7 Event.main
        ++ Event.irq 2 :: Event.irq 2 :: List.replicate 11 Event.main)
      2 rfl (by decide) (by decide)⟩

end GpioInterrupt
